import Mathlib

/-!
Shallow embedding of the belay package-manager core
(`src/belay/packagemanager.py`, `src/belay/packagemanager/group.py`,
`src/belay/packagemanager/downloaders/common.py`) together with proofs
about the spec's claims.

Strings are modelled as Lean `String` / `List Char`.  Python's
`urllib.parse.urlparse` is modelled for the URL fragment relevant here
(scheme / netloc / path / params / query / fragment splitting, no
IPv6-bracket validation and no control-character stripping).  Filesystem
state is modelled as association lists from names to file contents.
-/

namespace Belay

/-! ### Locator resolver (`src/belay/packagemanager.py`)

The resolver is `_process_url`, which tries `_process_url_github` and
falls back to the unmodified URL when it raises `NonMatchingURL`.
`urlparse` is embedded for the components the source reads
(`parsed.netloc` and `parsed.path`). -/

inductive UrlErr where
  /-- Python `NonMatchingURL` (caught by `_process_url`). -/
  | nonMatchingURL
  /-- Python `ValueError` from unpacking too few path segments
      (not caught by `_process_url`). -/
  | valueError
deriving DecidableEq, Repr

/-- Characters allowed in a URL scheme (CPython `scheme_chars`). -/
def schemeChar (c : Char) : Bool :=
  c.isAlphanum || c = '+' || c = '-' || c = '.'

/-- Model of CPython `urlsplit`'s scheme removal: if the text before the
first `:` is a nonempty valid scheme starting with a letter, drop it
(with the colon); otherwise leave the URL alone. -/
def dropScheme (cs : List Char) : List Char :=
  let pre := cs.takeWhile (fun c => c ≠ ':')
  if pre.length < cs.length ∧
      (match pre with | [] => false | c :: _ => c.isAlpha) = true ∧
      pre.all schemeChar = true then
    cs.drop (pre.length + 1)
  else
    cs

/-- Not a netloc delimiter (CPython `_splitnetloc` stops at `/?#`). -/
def notDelim (c : Char) : Bool := !(c = '/' || c = '?' || c = '#')

/-- Model of CPython `urlsplit`'s netloc split: when the remainder after
the scheme starts with `//`, the netloc runs up to the first `/?#`.
Returns `(netloc, rest)`. -/
def splitNetloc (cs : List Char) : List Char × List Char :=
  match cs with
  | '/' :: '/' :: rest => (rest.takeWhile notDelim, rest.dropWhile notDelim)
  | _ => ([], cs)

/-- Model of CPython `urlparse`'s `_splitparams` (drops `;params` from
the last path segment); applying it when no `;` is present is the
identity, matching the `if ';' in url` guard. -/
def splitParams (cs : List Char) : List Char :=
  if '/' ∈ cs then
    let seg := (cs.reverse.takeWhile (fun c => c ≠ '/')).reverse
    if ';' ∈ seg then
      cs.take (cs.length - seg.length) ++ seg.takeWhile (fun c => c ≠ ';')
    else cs
  else
    cs.takeWhile (fun c => c ≠ ';')

/-- The `path` component of `urlparse`: strip fragment (`#…`), query
(`?…`) and params (`;…` in the last segment) from the post-netloc rest. -/
def pathOfRest (rest : List Char) : List Char :=
  splitParams ((rest.takeWhile (fun c => c ≠ '#')).takeWhile (fun c => c ≠ '?'))

/-- `urlparse(url).netloc` for the modelled URL fragment. -/
def urlNetloc (url : String) : List Char :=
  (splitNetloc (dropScheme url.data)).1

/-- `urlparse(url).path` for the modelled URL fragment. -/
def urlPath (url : String) : List Char :=
  pathOfRest (splitNetloc (dropScheme url.data)).2

/-- `_strip_www`: drop a leading `www.`. -/
def stripWww (cs : List Char) : List Char :=
  match cs with
  | 'w' :: 'w' :: 'w' :: '.' :: rest => rest
  | _ => cs

/-- The host `_process_url_github` matches on:
`_strip_www(urlparse(url).netloc)`. -/
def urlHost (url : String) : List Char := stripWww (urlNetloc url)

/-- Python `str.split(sep)` for a single-character separator:
`"".split` is `[""]`, empty fields are kept. -/
def pySplit (sep : Char) : List Char → List (List Char)
  | [] => [[]]
  | c :: rest =>
    let r := pySplit sep rest
    if c = sep then [] :: r
    else
      match r with
      | h :: t => (c :: h) :: t
      | [] => [[c]]

/-- Python `sep.join(parts)` for a single-character separator. -/
def pyJoin (sep : Char) : List (List Char) → List Char
  | [] => []
  | [p] => p
  | p :: ps => p ++ sep :: pyJoin sep ps

/-- `_process_url_github`: rewrite a `github.com` URL to
`raw.githubusercontent.com` (dropping the mode segment), pass a
`raw.githubusercontent.com` path through, decline any other host.
Unpacking `_, user, project, mode, branch, *path` raises `ValueError`
on fewer than five `/`-split fields. -/
def _process_url_github (url : String) : Except UrlErr String :=
  let netloc := urlHost url
  let path := urlPath url
  if netloc = "github.com".data then
    match pySplit '/' path with
    | _ :: user :: project :: _mode :: branch :: rest =>
      .ok (String.mk ("https://raw.githubusercontent.com/".data ++
            user ++ '/' :: project ++ '/' :: branch ++ '/' :: pyJoin '/' rest))
    | _ => .error .valueError
  else if netloc = "raw.githubusercontent.com".data then
    .ok (String.mk ("https://raw.githubusercontent.com".data ++ path))
  else
    .error .nonMatchingURL

/-- `_process_url`: try the parsers (`_process_url_github`), catching
only `NonMatchingURL`; on no match return the URL unmodified. -/
def _process_url (url : String) : Except UrlErr String :=
  match _process_url_github url with
  | .ok r => .ok r
  | .error .nonMatchingURL => .ok url
  | .error e => .error e

/-- String-level `'/'.join` used to state theorems about the rewrite. -/
def joinSlash (parts : List String) : String :=
  String.mk (pyJoin '/' (parts.map String.data))

/-- A path segment free of the characters that would change the URL
parse: `/`, `?`, `#` and `;`. -/
def cleanSeg (s : String) : Bool :=
  s.data.all (fun c => ¬(c = '/' ∨ c = '?' ∨ c = '#' ∨ c = ';'))

/-- Decidable equality for `Except` results, used to evaluate the
resolver on concrete locators. -/
instance {ε α : Type} [DecidableEq ε] [DecidableEq α] :
    DecidableEq (Except ε α) := fun a b =>
  match a, b with
  | .ok x, .ok y =>
    if h : x = y then isTrue (by rw [h])
    else isFalse (by intro hc; cases hc; exact h rfl)
  | .error e, .error f =>
    if h : e = f then isTrue (by rw [h])
    else isFalse (by intro hc; cases hc; exact h rfl)
  | .ok _, .error _ => isFalse (by intro hc; cases hc)
  | .error _, .ok _ => isFalse (by intro hc; cases hc)

/-! ### `pathlib.Path` fragments used by the source

`Path(s).name` and `Path(s).suffix`, modelled for plain slash-separated
path strings (trailing slashes dropped, as pathlib does). -/

/-- `Path(s).name`: the final path component. -/
def pathName (s : String) : String :=
  let r := s.data.reverse.dropWhile (fun c => c = '/')
  String.mk ((r.takeWhile (fun c => c ≠ '/')).reverse)

/-- `Path(s).suffix`: the extension of the final component, `""` when the
last dot is leading or trailing (pathlib: `name[i:]` when
`0 < i < len(name) - 1` for `i = name.rfind('.')`). -/
def pathSuffix (s : String) : String :=
  let n := (pathName s).data
  if '.' ∈ n then
    let extRev := n.reverse.takeWhile (fun c => c ≠ '.')
    if 0 < extRev.length ∧ extRev.length < n.length - 1 then
      String.mk ('.' :: extRev.reverse)
    else ""
  else ""

/-! ### Downloader registry (`src/belay/packagemanager/downloaders/common.py`)

`download_uri` iterates the registered downloaders in registration order
(a `Registry`, i.e. insertion-ordered — modelled as a list), catching
only `NonMatchingURI`; the `for/else` falls through to
`_download_generic`, which is deliberately not registered.  The
filesystem/fsspec layer is abstracted by `FsModel`; fsspec raises its own
exception classes, never belay's `NonMatchingURI`, which the disjoint
`FsErr` type captures. -/

namespace Downloaders

/-- Errors visible to `download_uri`'s caller. -/
inductive DLErr where
  /-- belay's `NonMatchingURI` ("this downloader declines"). -/
  | nonMatchingURI
  /-- Any other exception (network or filesystem failure). -/
  | ioError (msg : String)
deriving DecidableEq, Repr

/-- Exceptions of the underlying fsspec/filesystem layer.  This type has
no `NonMatchingURI` constructor: the transport layer cannot raise
belay's registry-control exception. -/
inductive FsErr where
  | isADirectory
  | other (msg : String)
deriving DecidableEq, Repr

/-- How an fsspec exception surfaces to the caller of
`_download_generic` (uncaught, hence an ordinary error). -/
def FsErr.toDLErr : FsErr → DLErr
  | .isADirectory => .ioError "IsADirectoryError"
  | .other m => .ioError m

/-- Abstraction of the fsspec calls `_download_generic` makes. -/
structure FsModel where
  /-- `fsspec.open(uri, "rb")` + `f.read`. -/
  openRead : String → Except FsErr String
  /-- writing the fetched bytes to a destination path. -/
  write : String → String → Except FsErr Unit
  /-- `fsspec.filesystem("file").get(uri, dst, recursive=True)`. -/
  recursiveGet : String → String → Except FsErr Unit

/-- A registered downloader: `(dst, uri) -> Path`, raising
`NonMatchingURI` to decline. -/
def Downloader := String → String → Except DLErr String

/-- `_download_generic`: fetch `uri` as a single file into
`dst / Path(uri).name`; on `IsADirectoryError` fall back to a recursive
copy.  Note the source rebinds `dst` (`dst /= Path(uri).name`) inside
the `try` block before writing. -/
def _download_generic (fs : FsModel) (dst uri : String) : Except DLErr String :=
  match fs.openRead uri with
  | .error .isADirectory =>
    match fs.recursiveGet uri dst with
    | .ok _ => .ok dst
    | .error e => .error e.toDLErr
  | .error e => .error e.toDLErr
  | .ok _data =>
    let dst := dst ++ "/" ++ pathName uri
    match fs.write dst _data with
    | .ok _ => .ok dst
    | .error .isADirectory =>
      match fs.recursiveGet uri dst with
      | .ok _ => .ok dst
      | .error e => .error e.toDLErr
    | .error e => .error e.toDLErr

/-- `download_uri`: try every registered downloader in registration
order, catching only `NonMatchingURI`; if all decline (`for/else`), run
`_download_generic`. -/
def download_uri (registered : List Downloader) (fs : FsModel)
    (dst_folder uri : String) : Except DLErr String :=
  match registered with
  | [] => _download_generic fs dst_folder uri
  | d :: rest =>
    match d dst_folder uri with
    | .error .nonMatchingURI => download_uri rest fs dst_folder uri
    | .ok p => .ok p
    | .error e => .error e

end Downloaders

/-! ### Association-list helpers for the filesystem state -/

/-- Association-list lookup (first match). -/
def lookupA {α : Type} : List (String × α) → String → Option α
  | [], _ => none
  | (k, v) :: rest, key => if k = key then some v else lookupA rest key

/-- Association-list update: replace the first binding of `key`, or
append a new one. -/
def setA {α : Type} : List (String × α) → String → α → List (String × α)
  | [], key, v => [(key, v)]
  | (k, w) :: rest, key, v =>
    if k = key then (k, v) :: rest else (k, w) :: setA rest key v

/-! ### Group orchestrator (`src/belay/packagemanager/group.py`) -/

/-- A file inside a staged or destination directory: relative path and
byte content. -/
structure PkgFile where
  name : String
  content : String
deriving DecidableEq, Repr

/-- A dependency declaration value as parsed from `pyproject.toml`:
`str`, `list`, `dict`, or some other TOML value. -/
inductive DepDecl where
  | str (s : String)
  | list (xs : List String)
  | dict (entries : List (String × String))
  | other
deriving DecidableEq, Repr

/-- Errors raised inside `Group.download`'s per-package body. -/
inductive DownloadErr where
  /-- `NotImplementedError("List dependencies not yet supported.")`. -/
  | notImplementedList
  /-- `NotImplementedError("Dictionary dependencies not yet supported.")`
      (raised for non-str/list/dict values). -/
  | notImplementedOther
  /-- `KeyError` (missing package or missing `"remote"` key). -/
  | keyError
  /-- An exception escaping `download_uri`. -/
  | fetchError (msg : String)
  /-- `ast.parse` failure in `_verify_files`. -/
  | parseError
deriving DecidableEq, Repr

/-- The group's on-disk folder: one entry per existing package
subfolder, holding that subfolder's files.  Absence from the list means
the subfolder does not exist. -/
structure GroupState where
  folders : List (String × List PkgFile)
deriving DecidableEq, Repr

/-- Files of a package's destination folder (empty when absent). -/
def filesOf (st : GroupState) (pkg : String) : List PkgFile :=
  (lookupA st.folders pkg).getD []

/-- Whether a package's destination folder exists on disk. -/
def dirExists (st : GroupState) (pkg : String) : Bool :=
  (lookupA st.folders pkg).isSome

/-- `local_folder.mkdir(exist_ok=True, parents=True)`. -/
def mkdirPkg (st : GroupState) (pkg : String) : GroupState :=
  if (lookupA st.folders pkg).isSome then st
  else ⟨st.folders ++ [(pkg, [])]⟩

/-- Overwrite a package folder's contents. -/
def setFiles (st : GroupState) (pkg : String) (files : List PkgFile) : GroupState :=
  ⟨setA st.folders pkg files⟩

/-- `_verify_files`: walk the staged files; every one whose suffix is
`.py` must parse (`ast.parse`, abstracted as `parseOk`). -/
def _verify_files (parseOk : String → Bool) : List PkgFile → Except DownloadErr Unit
  | [] => .ok ()
  | f :: rest =>
    if pathSuffix f.name = ".py" ∧ parseOk f.content = false then .error .parseError
    else _verify_files parseOk rest

/-- Modelled from the spec: the sync engine (`belay.packagemanager.sync`,
whose module is not among the provided sources).  Per §6 it makes the
destination mirror the staged source exactly and reports whether
anything changed. -/
def sync (src dst : List PkgFile) : Bool × List PkgFile :=
  (decide (src ≠ dst), src)

/-- Normalization of a declaration inside `Group.download`:
`str` becomes `{"remote": str}`; `list` and non-dict values raise
`NotImplementedError`; the later `dep_src["remote"]` lookup raises
`KeyError` when absent. -/
def normalizeDecl : DepDecl → Except DownloadErr String
  | .str s => .ok s
  | .list _ => .error .notImplementedList
  | .dict es =>
    match lookupA es "remote" with
    | some r => .ok r
    | none => .error .keyError
  | .other => .error .notImplementedOther

/-- One iteration of `Group.download`'s loop for package `pkg`:
mkdir the destination folder, normalize the declaration, fetch into a
fresh staging directory (`fetch` abstracts `download_uri` and returns
the staged tree), verify, then sync into the destination.  Returns the
new state, the URIs passed to the downloader registry, and the raised
exception if any. -/
def downloadPackage (fetch : String → Except String (List PkgFile))
    (parseOk : String → Bool) (deps : List (String × DepDecl))
    (st : GroupState) (pkg : String) :
    GroupState × List String × Option DownloadErr :=
  let st1 := mkdirPkg st pkg
  match lookupA deps pkg with
  | none => (st1, [], some .keyError)
  | some d =>
    match normalizeDecl d with
    | .error e => (st1, [], some e)
    | .ok remote =>
      match fetch remote with
      | .error m => (st1, [remote], some (.fetchError m))
      | .ok staged =>
        match _verify_files parseOk staged with
        | .error e => (st1, [remote], some e)
        | .ok _ =>
          let res := sync staged (filesOf st1 pkg)
          (setFiles st1 pkg res.2, [remote], none)

/-- The exception (if any) package `pkg`'s iteration raises; independent
of the filesystem state. -/
def pkgErr (fetch : String → Except String (List PkgFile))
    (parseOk : String → Bool) (deps : List (String × DepDecl))
    (pkg : String) : Option DownloadErr :=
  match lookupA deps pkg with
  | none => some .keyError
  | some d =>
    match normalizeDecl d with
    | .error e => some e
    | .ok remote =>
      match fetch remote with
      | .error m => some (.fetchError m)
      | .ok staged =>
        match _verify_files parseOk staged with
        | .error e => some e
        | .ok _ => none

/-- Aggregate result of a `Group.download` call: final on-disk state,
packages whose loop iteration was entered, URIs passed to the downloader
registry, and the exception that escaped the call, if any. -/
structure RunResult where
  state : GroupState
  attempted : List String
  fetched : List String
  err : Option DownloadErr
deriving DecidableEq, Repr

/-- `Group.download`'s package loop.  A raised exception aborts the loop
(there is no per-package handler in the source); the filesystem keeps
whatever was done so far. -/
def downloadLoop (fetch : String → Except String (List PkgFile))
    (parseOk : String → Bool) (deps : List (String × DepDecl)) :
    List String → GroupState → RunResult
  | [], st => ⟨st, [], [], none⟩
  | p :: rest, st =>
    let step := downloadPackage fetch parseOk deps st p
    match step.2.2 with
    | some e => ⟨step.1, [p], step.2.1, some e⟩
    | none =>
      let r := downloadLoop fetch parseOk deps rest step.1
      ⟨r.state, p :: r.attempted, step.2.1 ++ r.fetched, r.err⟩

namespace Group

/-- `Group.download`: `packages=None` selects every declared package;
an empty selection returns immediately. -/
def download (fetch : String → Except String (List PkgFile))
    (parseOk : String → Bool) (deps : List (String × DepDecl))
    (packages : Option (List String)) (st : GroupState) : RunResult :=
  let pkgs := match packages with
    | none => deps.map Prod.fst
    | some l => l
  if pkgs.isEmpty then ⟨st, [], [], none⟩
  else downloadLoop fetch parseOk deps pkgs st

end Group

/-! ### `Group.clean` (`src/belay/packagemanager/group.py`)

`clean` globs the group folder and calls `Path.unlink()` on every entry
whose name is not a declared package name.  `unlink` removes files and
symlinks but raises `IsADirectoryError` for a directory. -/

/-- An entry directly under the group's folder. -/
inductive FolderEntry where
  | file (name : String) (content : String)
  | dir (name : String)
deriving DecidableEq, Repr

/-- The entry's file name. -/
def FolderEntry.name : FolderEntry → String
  | .file n _ => n
  | .dir n => n

/-- `Path.unlink` raised on a directory. -/
inductive CleanErr where
  | isADirectoryError
deriving DecidableEq, Repr

/-- The loop body of `Group.clean` over the globbed entries: declared
names are skipped, undeclared files are unlinked, an undeclared
directory makes `unlink` raise, leaving it and all later entries on
disk. -/
def cleanEntries (dependencies : List String) :
    List FolderEntry → List FolderEntry × Option CleanErr
  | [] => ([], none)
  | e :: rest =>
    if e.name ∈ dependencies then
      let r := cleanEntries dependencies rest
      (e :: r.1, r.2)
    else
      match e with
      | .file _ _ => cleanEntries dependencies rest
      | .dir _ => (e :: rest, some .isADirectoryError)

namespace Group

/-- `Group.clean`: no-op when the folder does not exist, otherwise
unlink every undeclared entry. -/
def clean (dependencies : List String)
    (folder : Option (List FolderEntry)) :
    Option (List FolderEntry) × Option CleanErr :=
  match folder with
  | none => (none, none)
  | some entries =>
    let r := cleanEntries dependencies entries
    (some r.1, r.2)

end Group

/-! ### Legacy `download_dependencies` (`src/belay/packagemanager.py`)

The single-file legacy path: `{path: locator}` declarations, resolution
via `_process_url`, a single-file `.py` fetch into
`local_dir/<pkg><ext>`.  Its local directory is modelled as an
association list from file name to content. -/

/-- Errors raised inside `download_dependencies`. -/
inductive LegacyErr where
  /-- `KeyError` (missing package or missing `"path"` key). -/
  | keyError
  /-- `ValueError(f"Invalid value for key {pkg_name}.")`. -/
  | valueError
  /-- `ValueError` escaping `_process_url` (short github path). -/
  | urlValueError
  /-- An exception from `httpx` in `_get_text`. -/
  | fetchError (msg : String)
  /-- `ast.parse` failure. -/
  | parseError
  /-- `NotImplementedError(f"Don't know how to process {url}.")`. -/
  | notImplemented
deriving DecidableEq, Repr

/-- Aggregate result of a `download_dependencies` call. -/
structure LegacyResult where
  files : List (String × String)
  attempted : List String
  fetched : List String
  err : Option LegacyErr
deriving DecidableEq, Repr

/-- The declaration's locator inside `download_dependencies`:
`str` becomes `{"path": str}`, non-dict values raise `ValueError`, and
`dep["path"]` raises `KeyError` when the key is absent. -/
def legacyPathOf : DepDecl → Except LegacyErr String
  | .str s => .ok s
  | .dict es =>
    match lookupA es "path" with
    | some v => .ok v
    | none => .error .keyError
  | .list _ => .error .valueError
  | .other => .error .valueError

/-- One iteration of `download_dependencies`'s loop: resolve the
locator, require a `.py` suffix, fetch the text (`_get_text`, abstracted
as `fetchText`), check it parses, then write it to
`local_dir/<pkg><ext>` only when it differs from the existing file. -/
def legacyStep (fetchText : String → Except String String)
    (parseOk : String → Bool) (deps : List (String × DepDecl))
    (files : List (String × String)) (pkg : String) :
    List (String × String) × List String × Option LegacyErr :=
  match lookupA deps pkg with
  | none => (files, [], some .keyError)
  | some d =>
    match legacyPathOf d with
    | .error e => (files, [], some e)
    | .ok locator =>
      match _process_url locator with
      | .error _ => (files, [], some .urlValueError)
      | .ok url =>
        let ext := pathSuffix url
        if ext = ".py" then
          match fetchText url with
          | .error m => (files, [url], some (.fetchError m))
          | .ok new_code =>
            if parseOk new_code = false then (files, [url], some .parseError)
            else
              let dstName := pkg ++ ext
              let old_code := (lookupA files dstName).getD ""
              if new_code = old_code then (files, [url], none)
              else (setA files dstName new_code, [url], none)
        else
          (files, [], some .notImplemented)

/-- `download_dependencies`'s loop over the selected packages; an
exception aborts the loop. -/
def legacyLoop (fetchText : String → Except String String)
    (parseOk : String → Bool) (deps : List (String × DepDecl)) :
    List String → List (String × String) → LegacyResult
  | [], files => ⟨files, [], [], none⟩
  | p :: rest, files =>
    let step := legacyStep fetchText parseOk deps files p
    match step.2.2 with
    | some e => ⟨step.1, [p], step.2.1, some e⟩
    | none =>
      let r := legacyLoop fetchText parseOk deps rest step.1
      ⟨r.files, p :: r.attempted, step.2.1 ++ r.fetched, r.err⟩

/-- `download_dependencies`'s package selection:
`if not packages: packages = list(dependencies.keys())` — `None` and an
explicit empty list both select every declared package. -/
def legacySelect (deps : List (String × DepDecl))
    (packages : Option (List String)) : List String :=
  match packages with
  | none => deps.map Prod.fst
  | some ps => if ps.isEmpty then deps.map Prod.fst else ps

/-- `download_dependencies`. -/
def download_dependencies (fetchText : String → Except String String)
    (parseOk : String → Bool) (deps : List (String × DepDecl))
    (packages : Option (List String)) (files : List (String × String)) :
    LegacyResult :=
  legacyLoop fetchText parseOk deps (legacySelect deps packages) files

/-! ## Lemmas -/

/-! ### Generic list helpers -/

theorem takeWhile_all_append (p : Char → Bool) (l₁ l₂ : List Char)
    (h : l₁.all p = true) :
    (l₁ ++ l₂).takeWhile p = l₁ ++ l₂.takeWhile p := by
  induction l₁ with
  | nil => simp
  | cons c cs ih =>
    simp only [List.all_cons, Bool.and_eq_true] at h
    simp [List.takeWhile, h.1, ih h.2]

theorem dropWhile_all_append (p : Char → Bool) (l₁ l₂ : List Char)
    (h : l₁.all p = true) :
    (l₁ ++ l₂).dropWhile p = l₂.dropWhile p := by
  induction l₁ with
  | nil => simp
  | cons c cs ih =>
    simp only [List.all_cons, Bool.and_eq_true] at h
    simp [List.dropWhile, h.1, ih h.2]

theorem takeWhile_eq_self_of_all (p : Char → Bool) (l : List Char)
    (h : l.all p = true) : l.takeWhile p = l := by
  induction l with
  | nil => rfl
  | cons c cs ih =>
    simp only [List.all_cons, Bool.and_eq_true] at h
    simp [List.takeWhile, h.1, ih h.2]

theorem mem_of_mem_takeWhile {p : Char → Bool} {l : List Char} {c : Char}
    (h : c ∈ l.takeWhile p) : c ∈ l := by
  induction l with
  | nil => simp [List.takeWhile] at h
  | cons d ds ih =>
    by_cases hp : p d
    · simp only [List.takeWhile, hp] at h
      rcases List.mem_cons.mp h with h | h
      · simp [h]
      · exact List.mem_cons_of_mem _ (ih h)
    · simp [List.takeWhile, hp] at h

/-! ### Downloader dispatch lemmas -/

namespace Downloaders

theorem download_uri_first_wins (l₁ : List Downloader) (d : Downloader)
    (l₂ : List Downloader) (fs : FsModel) (dst uri : String)
    (h1 : ∀ d' ∈ l₁, d' dst uri = .error .nonMatchingURI)
    (h2 : d dst uri ≠ .error .nonMatchingURI) :
    download_uri (l₁ ++ d :: l₂) fs dst uri = d dst uri := by
  induction l₁ with
  | nil =>
    cases hd : d dst uri with
    | ok p => simp [download_uri, hd]
    | error e =>
      cases e with
      | nonMatchingURI => exact absurd hd h2
      | ioError m => simp [download_uri, hd]
  | cons a as ih =>
    have ha : a dst uri = .error .nonMatchingURI := h1 a (List.mem_cons_self a as)
    have ih2 := ih (fun d' hd' => h1 d' (List.mem_cons_of_mem a hd'))
    simpa [download_uri, ha] using ih2

theorem download_uri_all_decline (l : List Downloader) (fs : FsModel)
    (dst uri : String)
    (h : ∀ d ∈ l, d dst uri = .error .nonMatchingURI) :
    download_uri l fs dst uri = _download_generic fs dst uri := by
  induction l with
  | nil => rfl
  | cons a as ih =>
    have ha : a dst uri = .error .nonMatchingURI := h a (List.mem_cons_self a as)
    have ih2 := ih (fun d' hd' => h d' (List.mem_cons_of_mem a hd'))
    simpa [download_uri, ha] using ih2

theorem generic_never_declines (fs : FsModel) (dst uri : String) :
    _download_generic fs dst uri ≠ .error .nonMatchingURI := by
  unfold _download_generic
  cases h1 : fs.openRead uri with
  | error e =>
    cases e with
    | isADirectory =>
      cases h2 : fs.recursiveGet uri dst with
      | ok u => simp
      | error e2 => cases e2 <;> simp [FsErr.toDLErr]
    | other m => simp [FsErr.toDLErr]
  | ok data =>
    cases h2 : fs.write (dst ++ "/" ++ pathName uri) data with
    | ok u => simp [h2]
    | error e2 =>
      cases e2 with
      | isADirectory =>
        cases h3 : fs.recursiveGet uri (dst ++ "/" ++ pathName uri) with
        | ok u => simp [h2, h3]
        | error e3 => cases e3 <;> simp [h2, h3, FsErr.toDLErr]
      | other m => simp [h2, FsErr.toDLErr]

end Downloaders

/-! ## Claim theorems -/

/-- C3: downloader dispatch tries the registered strategies in
registration order and returns the result of the first that does not
signal `NonMatchingURI`; the generic fallback runs when every registered
strategy declines (in particular for an empty registry, where
`download_uri` is the generic download by definition), and the generic
download itself never signals `NonMatchingURI`. -/
theorem C3_dispatch_order (registered : List Downloaders.Downloader)
    (fs : Downloaders.FsModel) (dst uri : String) :
    (∀ (l₁ : List Downloaders.Downloader) (d : Downloaders.Downloader)
       (l₂ : List Downloaders.Downloader),
       registered = l₁ ++ d :: l₂ →
       (∀ d' ∈ l₁, d' dst uri = .error .nonMatchingURI) →
       d dst uri ≠ .error .nonMatchingURI →
       Downloaders.download_uri registered fs dst uri = d dst uri) ∧
    ((∀ d ∈ registered, d dst uri = .error .nonMatchingURI) →
       Downloaders.download_uri registered fs dst uri =
         Downloaders._download_generic fs dst uri) ∧
    Downloaders._download_generic fs dst uri ≠ .error .nonMatchingURI := by
  refine ⟨?_, ?_, Downloaders.generic_never_declines fs dst uri⟩
  · intro l₁ d l₂ heq h1 h2
    subst heq
    exact Downloaders.download_uri_first_wins l₁ d l₂ fs dst uri h1 h2
  · intro h
    exact Downloaders.download_uri_all_decline registered fs dst uri h

/-- Witness for C3 at a concrete registry: a declining strategy followed
by an accepting one; dispatch returns the second strategy's result. -/
theorem C3_dispatch_order_witness :
    Downloaders.download_uri
        [fun _ _ => .error .nonMatchingURI,
         fun d u => .ok (d ++ "/" ++ u)]
        ⟨fun _ => .ok "data", fun _ _ => .ok (), fun _ _ => .ok ()⟩
        "dst" "u" = .ok "dst/u" := by
  have h := C3_dispatch_order
    [fun _ _ => .error .nonMatchingURI, fun d u => .ok (d ++ "/" ++ u)]
    ⟨fun _ => .ok "data", fun _ _ => .ok (), fun _ _ => .ok ()⟩ "dst" "u"
  have h1 := h.1 [fun _ _ => .error .nonMatchingURI]
    (fun d u => .ok (d ++ "/" ++ u)) [] rfl
    (fun d' hd' => by
      rcases List.mem_singleton.mp hd' with rfl
      rfl)
    (by simp)
  exact h1

/-- C5: a locator whose stripped host matches neither `github.com` nor
`raw.githubusercontent.com` is returned unchanged, and no exception
escapes `_process_url`. -/
theorem C5_unmatched_host_identity (url : String)
    (h1 : urlHost url ≠ "github.com".data)
    (h2 : urlHost url ≠ "raw.githubusercontent.com".data) :
    _process_url url = .ok url := by
  simp only [_process_url, _process_url_github, if_neg h1, if_neg h2]

/-- Witness for C5 at a concrete non-matching locator. -/
theorem C5_unmatched_host_identity_witness :
    urlHost "https://example.com/x" ≠ "github.com".data ∧
    _process_url "https://example.com/x" = .ok "https://example.com/x" :=
  ⟨by decide, C5_unmatched_host_identity "https://example.com/x" (by decide) (by decide)⟩

/-- C7: evaluating `Group.clean` at the claim's own scenario — declared
packages `foo` and `bar`, on-disk entries `foo`, `bar`, `baz` created as
directories (as `Group.download` creates them) — shows `Path.unlink`
raising `IsADirectoryError` and `baz` left on disk, instead of the
deletion the claim (and the source's docstring) describes. -/
theorem C7_clean_raises_on_directory_entry :
    Group.clean ["foo", "bar"]
        (some [.dir "foo", .dir "bar", .dir "baz"]) =
      (some [.dir "foo", .dir "bar", .dir "baz"], some .isADirectoryError) := by
  decide

end Belay

namespace Belay

/-! ### Association-list and group-state lemmas -/

theorem lookupA_append_ne {α : Type} (l : List (String × α)) (k key : String)
    (v : α) (hne : k ≠ key) : lookupA (l ++ [(k, v)]) key = lookupA l key := by
  induction l with
  | nil => simp [lookupA, hne]
  | cons e rest ih =>
    by_cases h : e.1 = key <;> simp [lookupA, h, ih]

theorem lookupA_append_of_none {α : Type} (l : List (String × α)) (k : String)
    (v : α) (h : lookupA l k = none) : lookupA (l ++ [(k, v)]) k = some v := by
  induction l with
  | nil => simp [lookupA]
  | cons e rest ih =>
    by_cases he : e.1 = k
    · simp [lookupA, he] at h
    · simp [lookupA, he] at h ⊢
      exact ih h

theorem lookupA_setA_ne {α : Type} (l : List (String × α)) (k key : String)
    (v : α) (hne : k ≠ key) : lookupA (setA l k v) key = lookupA l key := by
  induction l with
  | nil => simp [setA, lookupA, hne]
  | cons e rest ih =>
    obtain ⟨a, b⟩ := e
    by_cases h : a = k
    · subst h
      simp [setA, lookupA, hne]
    · simp [setA, h, lookupA, ih]

theorem lookupA_mkdir_ne (st : GroupState) (q p : String) (hne : q ≠ p) :
    lookupA (mkdirPkg st q).folders p = lookupA st.folders p := by
  unfold mkdirPkg
  by_cases h : (lookupA st.folders q).isSome
  · simp [h]
  · simp [h, lookupA_append_ne st.folders q p [] hne]

theorem filesOf_mkdir_self (st : GroupState) (p : String) :
    filesOf (mkdirPkg st p) p = filesOf st p := by
  unfold filesOf mkdirPkg
  cases h : lookupA st.folders p with
  | some files => simp [h]
  | none => simp [h, lookupA_append_of_none st.folders p [] h]

/-! ### `downloadPackage` lemmas -/

theorem downloadPackage_err_eq (fe : String → Except String (List PkgFile))
    (pa : String → Bool) (deps : List (String × DepDecl)) (st : GroupState)
    (pkg : String) :
    (downloadPackage fe pa deps st pkg).2.2 = pkgErr fe pa deps pkg := by
  cases hd : lookupA deps pkg with
  | none => simp [downloadPackage, pkgErr, hd]
  | some d =>
    cases hn : normalizeDecl d with
    | error e => simp [downloadPackage, pkgErr, hd, hn]
    | ok remote =>
      cases hf : fe remote with
      | error m => simp [downloadPackage, pkgErr, hd, hn, hf]
      | ok staged =>
        cases hv : _verify_files pa staged with
        | error e => simp [downloadPackage, pkgErr, hd, hn, hf, hv]
        | ok u => simp [downloadPackage, pkgErr, hd, hn, hf, hv]

theorem downloadPackage_state_of_err (fe : String → Except String (List PkgFile))
    (pa : String → Bool) (deps : List (String × DepDecl)) (st : GroupState)
    (pkg : String) (e : DownloadErr) (h : pkgErr fe pa deps pkg = some e) :
    (downloadPackage fe pa deps st pkg).1 = mkdirPkg st pkg := by
  cases hd : lookupA deps pkg with
  | none => simp [downloadPackage, hd]
  | some d =>
    cases hn : normalizeDecl d with
    | error e2 => simp [downloadPackage, hd, hn]
    | ok remote =>
      cases hf : fe remote with
      | error m => simp [downloadPackage, hd, hn, hf]
      | ok staged =>
        cases hv : _verify_files pa staged with
        | error e2 => simp [downloadPackage, hd, hn, hf, hv]
        | ok u => simp [pkgErr, hd, hn, hf, hv] at h

theorem downloadPackage_lookup_ne (fe : String → Except String (List PkgFile))
    (pa : String → Bool) (deps : List (String × DepDecl)) (st : GroupState)
    (q p : String) (hne : q ≠ p) :
    lookupA (downloadPackage fe pa deps st q).1.folders p = lookupA st.folders p := by
  have hm := lookupA_mkdir_ne st q p hne
  cases hd : lookupA deps q with
  | none => simp only [downloadPackage, hd]; exact hm
  | some d =>
    cases hn : normalizeDecl d with
    | error e => simp only [downloadPackage, hd, hn]; exact hm
    | ok remote =>
      cases hf : fe remote with
      | error m => simp only [downloadPackage, hd, hn, hf]; exact hm
      | ok staged =>
        cases hv : _verify_files pa staged with
        | error e => simp only [downloadPackage, hd, hn, hf, hv]; exact hm
        | ok u =>
          simp only [downloadPackage, hd, hn, hf, hv, setFiles]
          rw [lookupA_setA_ne _ q p _ hne]
          exact hm

theorem downloadPackage_list_decl (fe : String → Except String (List PkgFile))
    (pa : String → Bool) (deps : List (String × DepDecl)) (st : GroupState)
    (p : String) (xs : List String) (h : lookupA deps p = some (.list xs)) :
    downloadPackage fe pa deps st p = (mkdirPkg st p, [], some .notImplementedList) := by
  simp [downloadPackage, h, normalizeDecl]

theorem pkgErr_list_decl (fe : String → Except String (List PkgFile))
    (pa : String → Bool) (deps : List (String × DepDecl))
    (p : String) (xs : List String) (h : lookupA deps p = some (.list xs)) :
    pkgErr fe pa deps p = some .notImplementedList := by
  simp [pkgErr, h, normalizeDecl]

theorem verify_fails_of_bad_py (pa : String → Bool) (staged : List PkgFile)
    (fl : PkgFile) (hf : fl ∈ staged) (hs : pathSuffix fl.name = ".py")
    (hp : pa fl.content = false) :
    _verify_files pa staged = .error .parseError := by
  induction staged with
  | nil => cases hf
  | cons g rest ih =>
    by_cases hg : pathSuffix g.name = ".py" ∧ pa g.content = false
    · simp [_verify_files, hg]
    · have hmem : fl ∈ rest := by
        rcases List.mem_cons.mp hf with rfl | h
        · exact absurd ⟨hs, hp⟩ hg
        · exact h
      simp [_verify_files, hg, ih hmem]

theorem pkgErr_of_bad_py (fe : String → Except String (List PkgFile))
    (pa : String → Bool) (deps : List (String × DepDecl)) (pkg : String)
    (d : DepDecl) (remote : String) (staged : List PkgFile) (fl : PkgFile)
    (h1 : lookupA deps pkg = some d)
    (h2 : normalizeDecl d = .ok remote)
    (h3 : fe remote = .ok staged)
    (h4 : fl ∈ staged) (h5 : pathSuffix fl.name = ".py")
    (h6 : pa fl.content = false) :
    pkgErr fe pa deps pkg = some .parseError := by
  simp [pkgErr, h1, h2, h3, verify_fails_of_bad_py pa staged fl h4 h5 h6]

/-! ### `downloadLoop` lemmas -/

theorem downloadLoop_files_preserved (fe : String → Except String (List PkgFile))
    (pa : String → Bool) (deps : List (String × DepDecl)) (p : String)
    (hp : pkgErr fe pa deps p ≠ none) :
    ∀ (pkgs : List String) (st : GroupState),
      filesOf (downloadLoop fe pa deps pkgs st).state p = filesOf st p := by
  intro pkgs
  induction pkgs with
  | nil => intro st; rfl
  | cons q rest ih =>
    intro st
    have herr := downloadPackage_err_eq fe pa deps st q
    by_cases hqp : q = p
    · subst hqp
      obtain ⟨e, he⟩ := Option.ne_none_iff_exists'.mp hp
      rw [he] at herr
      simp only [downloadLoop, herr]
      rw [downloadPackage_state_of_err fe pa deps st q e he]
      exact filesOf_mkdir_self st q
    · have hlk := downloadPackage_lookup_ne fe pa deps st q p hqp
      have hfo : filesOf (downloadPackage fe pa deps st q).1 p = filesOf st p := by
        unfold filesOf; rw [hlk]
      cases hstep : pkgErr fe pa deps q with
      | some e =>
        rw [hstep] at herr
        simp only [downloadLoop, herr]
        exact hfo
      | none =>
        rw [hstep] at herr
        simp only [downloadLoop, herr]
        rw [ih (downloadPackage fe pa deps st q).1]
        exact hfo

theorem downloadLoop_err_of_mem (fe : String → Except String (List PkgFile))
    (pa : String → Bool) (deps : List (String × DepDecl)) (p : String)
    (hp : pkgErr fe pa deps p ≠ none) :
    ∀ (pkgs : List String) (st : GroupState), p ∈ pkgs →
      (downloadLoop fe pa deps pkgs st).err ≠ none := by
  intro pkgs
  induction pkgs with
  | nil => intro st hmem; cases hmem
  | cons q rest ih =>
    intro st hmem
    have herr := downloadPackage_err_eq fe pa deps st q
    cases hstep : pkgErr fe pa deps q with
    | some e =>
      rw [hstep] at herr
      simp [downloadLoop, herr]
    | none =>
      rw [hstep] at herr
      have hqp : q ≠ p := by
        intro hq
        rw [hq] at hstep
        exact hp hstep
      have hmem2 : p ∈ rest := by
        rcases List.mem_cons.mp hmem with h | h
        · exact absurd h.symm hqp
        · exact h
      simp only [downloadLoop, herr]
      exact ih (downloadPackage fe pa deps st q).1 hmem2

theorem downloadLoop_lookup_ne (fe : String → Except String (List PkgFile))
    (pa : String → Bool) (deps : List (String × DepDecl)) (p : String) :
    ∀ (pkgs : List String) (st : GroupState), (∀ q ∈ pkgs, q ≠ p) →
      lookupA (downloadLoop fe pa deps pkgs st).state.folders p = lookupA st.folders p := by
  intro pkgs
  induction pkgs with
  | nil => intro st h; rfl
  | cons q rest ih =>
    intro st h
    have hq : q ≠ p := h q (List.mem_cons_self q rest)
    have hlk := downloadPackage_lookup_ne fe pa deps st q p hq
    have herr := downloadPackage_err_eq fe pa deps st q
    cases hstep : pkgErr fe pa deps q with
    | some e =>
      rw [hstep] at herr
      simp only [downloadLoop, herr]
      exact hlk
    | none =>
      rw [hstep] at herr
      simp only [downloadLoop, herr]
      rw [ih (downloadPackage fe pa deps st q).1 (fun r hr => h r (List.mem_cons_of_mem q hr))]
      exact hlk

theorem downloadLoop_append (fe : String → Except String (List PkgFile))
    (pa : String → Bool) (deps : List (String × DepDecl)) :
    ∀ (l₁ l₂ : List String) (st : GroupState),
      (∀ q ∈ l₁, pkgErr fe pa deps q = none) →
      downloadLoop fe pa deps (l₁ ++ l₂) st =
        ⟨(downloadLoop fe pa deps l₂ (downloadLoop fe pa deps l₁ st).state).state,
         l₁ ++ (downloadLoop fe pa deps l₂ (downloadLoop fe pa deps l₁ st).state).attempted,
         (downloadLoop fe pa deps l₁ st).fetched ++
           (downloadLoop fe pa deps l₂ (downloadLoop fe pa deps l₁ st).state).fetched,
         (downloadLoop fe pa deps l₂ (downloadLoop fe pa deps l₁ st).state).err⟩ := by
  intro l₁
  induction l₁ with
  | nil => intro l₂ st h; simp [downloadLoop]
  | cons q rest ih =>
    intro l₂ st h
    have hq : pkgErr fe pa deps q = none := h q (List.mem_cons_self q rest)
    have herr := downloadPackage_err_eq fe pa deps st q
    rw [hq] at herr
    have ih2 := ih l₂ (downloadPackage fe pa deps st q).1
      (fun r hr => h r (List.mem_cons_of_mem q hr))
    simp only [List.cons_append, downloadLoop, herr, List.append_eq]
    rw [ih2]
    simp [List.append_assoc]

/-! ### Claims C1, C4, C8, C9 -/

/-- C1: when a package's staged download contains a `.py` file that
fails `ast.parse`, the verification step raises before `sync` is
reached: the package's iteration fails, the whole `Group.download` call
raises, and the files of that package's destination folder are exactly
what they were before the call. -/
theorem C1_invalid_py_rejects_package (fe : String → Except String (List PkgFile))
    (pa : String → Bool) (deps : List (String × DepDecl)) (st : GroupState)
    (pkgs : List String) (pkg : String) (d : DepDecl) (remote : String)
    (staged : List PkgFile) (fl : PkgFile)
    (h1 : lookupA deps pkg = some d)
    (h2 : normalizeDecl d = .ok remote)
    (h3 : fe remote = .ok staged)
    (h4 : fl ∈ staged) (h5 : pathSuffix fl.name = ".py")
    (h6 : pa fl.content = false) :
    pkgErr fe pa deps pkg = some .parseError ∧
    filesOf (Group.download fe pa deps (some pkgs) st).state pkg = filesOf st pkg ∧
    (pkg ∈ pkgs → (Group.download fe pa deps (some pkgs) st).err ≠ none) := by
  have hperr := pkgErr_of_bad_py fe pa deps pkg d remote staged fl h1 h2 h3 h4 h5 h6
  have hne : pkgErr fe pa deps pkg ≠ none := by rw [hperr]; exact Option.some_ne_none _
  refine ⟨hperr, ?_, ?_⟩
  · simp only [Group.download]
    split
    · rfl
    · exact downloadLoop_files_preserved fe pa deps pkg hne pkgs st
  · intro hmem
    simp only [Group.download]
    split
    · rename_i hemp
      rw [List.isEmpty_iff] at hemp
      subst hemp
      cases hmem
    · exact downloadLoop_err_of_mem fe pa deps pkg hne pkgs st hmem

/-- Witness for C1: a one-package group whose staged download holds an
unparsable `mod.py`; the pre-existing destination content survives and
the call raises. -/
theorem C1_invalid_py_rejects_package_witness :
    filesOf (Group.download (fun _ => .ok [⟨"mod.py", "not python"⟩])
        (fun _ => false) [("pkg", .str "u")] (some ["pkg"])
        ⟨[("pkg", [⟨"old.py", "v1"⟩])]⟩).state "pkg" = [⟨"old.py", "v1"⟩] ∧
    (Group.download (fun _ => .ok [⟨"mod.py", "not python"⟩])
        (fun _ => false) [("pkg", .str "u")] (some ["pkg"])
        ⟨[("pkg", [⟨"old.py", "v1"⟩])]⟩).err ≠ none := by
  have h := C1_invalid_py_rejects_package (fun _ => .ok [⟨"mod.py", "not python"⟩])
    (fun _ => false) [("pkg", .str "u")] ⟨[("pkg", [⟨"old.py", "v1"⟩])]⟩
    ["pkg"] "pkg" (.str "u") "u" [⟨"mod.py", "not python"⟩] ⟨"mod.py", "not python"⟩
    rfl rfl rfl (by decide) (by decide) rfl
  exact ⟨h.2.1.trans (by decide), h.2.2 (by decide)⟩

/-- C4 counterexample: packages `a` then `b`, where `a`'s staged
download fails verification — the call aborts with the `SyntaxError`
and `b` is never attempted, contradicting the claim that every later
sibling package is still attempted. -/
theorem C4_counterexample :
    (Group.download
        (fun u => if u = "u1" then .ok [⟨"m.py", "!"⟩] else .ok [⟨"m.py", "pass"⟩])
        (fun c => decide (c ≠ "!"))
        [("a", .str "u1"), ("b", .str "u2")] none ⟨[]⟩).attempted = ["a"] ∧
    "b" ∉ (Group.download
        (fun u => if u = "u1" then .ok [⟨"m.py", "!"⟩] else .ok [⟨"m.py", "pass"⟩])
        (fun c => decide (c ≠ "!"))
        [("a", .str "u1"), ("b", .str "u2")] none ⟨[]⟩).attempted ∧
    (Group.download
        (fun u => if u = "u1" then .ok [⟨"m.py", "!"⟩] else .ok [⟨"m.py", "pass"⟩])
        (fun c => decide (c ≠ "!"))
        [("a", .str "u1"), ("b", .str "u2")] none ⟨[]⟩).err = some .parseError := by
  decide

/-- C4 (amended): a package failure is not isolated — the exception
propagates out of `Group.download`, so the packages after the failing
one are never attempted: the attempted list stops exactly at the
failing package. -/
theorem C4_failure_aborts_batch (fe : String → Except String (List PkgFile))
    (pa : String → Bool) (deps : List (String × DepDecl)) (st : GroupState)
    (l₁ : List String) (p : String) (l₂ : List String) (e : DownloadErr)
    (h1 : ∀ q ∈ l₁, pkgErr fe pa deps q = none)
    (h2 : pkgErr fe pa deps p = some e) :
    (Group.download fe pa deps (some (l₁ ++ p :: l₂)) st).attempted = l₁ ++ [p] ∧
    (Group.download fe pa deps (some (l₁ ++ p :: l₂)) st).err = some e := by
  have hne : (l₁ ++ p :: l₂).isEmpty = false := by cases l₁ <;> rfl
  have herr := downloadPackage_err_eq fe pa deps (downloadLoop fe pa deps l₁ st).state p
  rw [h2] at herr
  simp only [Group.download, hne, Bool.false_eq_true, if_false]
  rw [downloadLoop_append fe pa deps l₁ (p :: l₂) st h1]
  simp [downloadLoop, herr]

/-- Witness for C4's amended statement at a concrete two-package run. -/
theorem C4_failure_aborts_batch_witness :
    (Group.download (fun _ => .error "offline") (fun _ => true)
        [("a", .str "u1"), ("b", .str "u2")] (some ["a", "b"]) ⟨[]⟩).attempted = ["a"] ∧
    (Group.download (fun _ => .error "offline") (fun _ => true)
        [("a", .str "u1"), ("b", .str "u2")] (some ["a", "b"]) ⟨[]⟩).err =
      some (.fetchError "offline") := by
  have h := C4_failure_aborts_batch (fun _ => .error "offline") (fun _ => true)
    [("a", .str "u1"), ("b", .str "u2")] ⟨[]⟩ [] "a" ["b"] (.fetchError "offline")
    (fun q hq => absurd hq (List.not_mem_nil q)) rfl
  exact h

/-- C8: a list-valued declaration makes the package's iteration raise
`NotImplementedError` during normalization; the batch aborts with that
error and the downloader registry receives no URI for that package (the
fetch log is exactly that of the earlier, successful packages). -/
theorem C8_list_decl_fails_before_fetch (fe : String → Except String (List PkgFile))
    (pa : String → Bool) (deps : List (String × DepDecl)) (st : GroupState)
    (l₁ : List String) (p : String) (l₂ : List String) (xs : List String)
    (h1 : ∀ q ∈ l₁, pkgErr fe pa deps q = none)
    (h2 : lookupA deps p = some (.list xs)) :
    (Group.download fe pa deps (some (l₁ ++ p :: l₂)) st).err =
      some .notImplementedList ∧
    (Group.download fe pa deps (some (l₁ ++ p :: l₂)) st).fetched =
      (downloadLoop fe pa deps l₁ st).fetched := by
  have hne : (l₁ ++ p :: l₂).isEmpty = false := by cases l₁ <;> rfl
  have hstep := downloadPackage_list_decl fe pa deps
    (downloadLoop fe pa deps l₁ st).state p xs h2
  simp only [Group.download, hne, Bool.false_eq_true, if_false]
  rw [downloadLoop_append fe pa deps l₁ (p :: l₂) st h1]
  simp [downloadLoop, hstep]

/-- Witness for C8: a single list-valued package; the run raises the
configuration error and no URI reaches the registry. -/
theorem C8_list_decl_fails_before_fetch_witness :
    (Group.download (fun _ => .ok []) (fun _ => true)
        [("p", .list ["a", "b"])] (some ["p"]) ⟨[]⟩).err =
      some .notImplementedList ∧
    (Group.download (fun _ => .ok []) (fun _ => true)
        [("p", .list ["a", "b"])] (some ["p"]) ⟨[]⟩).fetched = [] := by
  have h := C8_list_decl_fails_before_fetch (fun _ => .ok []) (fun _ => true)
    [("p", .list ["a", "b"])] ⟨[]⟩ [] "p" [] ["a", "b"]
    (fun q hq => absurd hq (List.not_mem_nil q)) rfl
  exact h

/-- C9: the destination folder is created before normalization, fetch
and verification; a package that then fails leaves behind a newly
created, empty destination folder where none existed before the call. -/
theorem C9_mkdir_precedes_failure (fe : String → Except String (List PkgFile))
    (pa : String → Bool) (deps : List (String × DepDecl)) (st : GroupState)
    (l₁ : List String) (p : String) (l₂ : List String) (e : DownloadErr)
    (h1 : ∀ q ∈ l₁, pkgErr fe pa deps q = none)
    (h2 : pkgErr fe pa deps p = some e)
    (h3 : dirExists st p = false) :
    dirExists (Group.download fe pa deps (some (l₁ ++ p :: l₂)) st).state p = true ∧
    filesOf (Group.download fe pa deps (some (l₁ ++ p :: l₂)) st).state p = [] ∧
    (Group.download fe pa deps (some (l₁ ++ p :: l₂)) st).err = some e := by
  have hne : (l₁ ++ p :: l₂).isEmpty = false := by cases l₁ <;> rfl
  have hnone : lookupA st.folders p = none := by
    unfold dirExists at h3
    cases h : lookupA st.folders p with
    | none => rfl
    | some files => rw [h] at h3; simp at h3
  have hl : lookupA (downloadLoop fe pa deps l₁ st).state.folders p =
      lookupA st.folders p := by
    refine downloadLoop_lookup_ne fe pa deps p l₁ st (fun q hq hqp => ?_)
    have hcontra := h1 q hq
    rw [hqp, h2] at hcontra
    exact Option.some_ne_none e hcontra
  have hstate := downloadPackage_state_of_err fe pa deps
    (downloadLoop fe pa deps l₁ st).state p e h2
  have herr := downloadPackage_err_eq fe pa deps (downloadLoop fe pa deps l₁ st).state p
  rw [h2] at herr
  have hnone2 : lookupA (downloadLoop fe pa deps l₁ st).state.folders p = none :=
    hl.trans hnone
  have hmk : lookupA (mkdirPkg (downloadLoop fe pa deps l₁ st).state p).folders p =
      some [] := by
    unfold mkdirPkg
    rw [hnone2]
    simp only [Option.isSome_none, Bool.false_eq_true, if_false]
    exact lookupA_append_of_none _ p [] hnone2
  simp only [Group.download, hne, Bool.false_eq_true, if_false]
  rw [downloadLoop_append fe pa deps l₁ (p :: l₂) st h1]
  refine ⟨?_, ?_, ?_⟩
  · simp only [downloadLoop, herr]
    rw [hstate]
    unfold dirExists
    rw [hmk]
    rfl
  · simp only [downloadLoop, herr]
    rw [hstate]
    unfold filesOf
    rw [hmk]
    rfl
  · simp [downloadLoop, herr]

/-! ### Claim C10 (legacy `download_dependencies` selection) -/

theorem legacyLoop_attempted_of_ok (ft : String → Except String String)
    (pa : String → Bool) (deps : List (String × DepDecl)) :
    ∀ (pkgs : List String) (files : List (String × String)),
      (legacyLoop ft pa deps pkgs files).err = none →
      (legacyLoop ft pa deps pkgs files).attempted = pkgs := by
  intro pkgs
  induction pkgs with
  | nil => intro files h; rfl
  | cons q rest ih =>
    intro files h
    cases hstep : (legacyStep ft pa deps files q).2.2 with
    | some e => simp [legacyLoop, hstep] at h
    | none =>
      simp only [legacyLoop, hstep] at h ⊢
      rw [ih _ h]

/-- C10: the legacy `download_dependencies` treats an explicit empty
`packages` list like `None` (`if not packages`), selecting and
processing every declared package, while `Group.download` returns
immediately on an explicit empty list without touching anything. -/
theorem C10_empty_list_selects_all (ft : String → Except String String)
    (pa : String → Bool) (deps : List (String × DepDecl))
    (files : List (String × String))
    (fe : String → Except String (List PkgFile)) (pa2 : String → Bool)
    (deps2 : List (String × DepDecl)) (st : GroupState) :
    download_dependencies ft pa deps (some []) files =
      download_dependencies ft pa deps none files ∧
    legacySelect deps (some []) = deps.map Prod.fst ∧
    ((download_dependencies ft pa deps (some []) files).err = none →
      (download_dependencies ft pa deps (some []) files).attempted =
        deps.map Prod.fst) ∧
    Group.download fe pa2 deps2 (some []) st = ⟨st, [], [], none⟩ := by
  refine ⟨rfl, rfl, ?_, rfl⟩
  intro h
  exact legacyLoop_attempted_of_ok ft pa deps _ files h

/-- Witness for C10: one declared package, explicit empty selection —
the legacy run processes it. -/
theorem C10_empty_list_selects_all_witness :
    (download_dependencies (fun _ => .ok "x = 1") (fun _ => true)
        [("a", .str "u/a.py")] (some []) []).err = none ∧
    (download_dependencies (fun _ => .ok "x = 1") (fun _ => true)
        [("a", .str "u/a.py")] (some []) []).attempted = ["a"] := by
  have h := C10_empty_list_selects_all (fun _ => .ok "x = 1") (fun _ => true)
    [("a", .str "u/a.py")] [] (fun _ => .ok []) (fun _ => true) [] ⟨[]⟩
  exact ⟨by decide, h.2.2.1 (by decide)⟩

/-- Witness for C9: a single failing (list-valued) package whose
destination folder did not exist; after the call it exists and is
empty. -/
theorem C9_mkdir_precedes_failure_witness :
    dirExists (Group.download (fun _ => .ok []) (fun _ => true)
        [("p", .list [])] (some ["p"]) ⟨[]⟩).state "p" = true ∧
    filesOf (Group.download (fun _ => .ok []) (fun _ => true)
        [("p", .list [])] (some ["p"]) ⟨[]⟩).state "p" = [] := by
  have h := C9_mkdir_precedes_failure (fun _ => .ok []) (fun _ => true)
    [("p", .list [])] ⟨[]⟩ [] "p" [] .notImplementedList
    (fun q hq => absurd hq (List.not_mem_nil q)) rfl rfl
  exact ⟨h.1, h.2.1⟩

/-! ### URL parsing lemmas (for C2 and C6) -/

theorem drop_length_append (l₁ l₂ : List Char) :
    (l₁ ++ l₂).drop l₁.length = l₂ := by
  induction l₁ with
  | nil => rfl
  | cons c cs ih => exact ih

theorem dropWhile_nil_of_all (p : Char → Bool) (l : List Char)
    (h : l.all p = true) : l.dropWhile p = [] := by
  induction l with
  | nil => rfl
  | cons c cs ih =>
    simp only [List.all_cons, Bool.and_eq_true] at h
    simp [List.dropWhile, h.1, ih h.2]

theorem all_weaken {p q : Char → Bool} (l : List Char) (h : l.all p = true)
    (himp : ∀ c, p c = true → q c = true) : l.all q = true := by
  simp only [List.all_eq_true] at h ⊢
  exact fun c hc => himp c (h c hc)

theorem strExt (a b : String) (h : a.data = b.data) : a = b := by
  cases a
  cases b
  exact congrArg String.mk h

theorem strData_append (a b : String) : (a ++ b).data = a.data ++ b.data := rfl

theorem dropScheme_https (p : List Char) :
    dropScheme ("https:".data ++ p) = p := by
  have heq : "https:".data ++ p = "https".data ++ (':' :: p) := rfl
  have h1 : ("https:".data ++ p).takeWhile (fun c => c ≠ ':') = "https".data := by
    rw [heq, takeWhile_all_append _ _ _ (by decide)]
    simp [List.takeWhile]
  simp only [dropScheme, h1]
  rw [if_pos]
  · have h2 : "https".data.length + 1 = "https:".data.length := rfl
    rw [h2]
    exact drop_length_append _ p
  · refine ⟨?_, by decide, by decide⟩
    rw [List.length_append]
    have h3 : "https".data.length = 5 := rfl
    have h4 : "https:".data.length = 6 := rfl
    rw [h3, h4]
    omega

theorem splitNetloc_host (host p : List Char) (hh : host.all notDelim = true)
    (hp : p.head? = some '/' ∨ p = []) :
    splitNetloc ('/' :: '/' :: (host ++ p)) = (host, p) := by
  show ((host ++ p).takeWhile notDelim, (host ++ p).dropWhile notDelim) = (host, p)
  rcases hp with hp | hp
  · cases p with
    | nil => simp at hp
    | cons c q =>
      obtain rfl : c = '/' := by simpa using hp
      rw [takeWhile_all_append _ _ _ hh, dropWhile_all_append _ _ _ hh]
      simp [List.takeWhile, List.dropWhile, notDelim]
  · subst hp
    rw [List.append_nil, takeWhile_eq_self_of_all _ _ hh,
      dropWhile_nil_of_all _ _ hh]

theorem splitParams_id (cs : List Char) (h : ';' ∉ cs) : splitParams cs = cs := by
  have hall : cs.all (fun c => c ≠ ';') = true := by
    simp only [List.all_eq_true, decide_eq_true_eq]
    intro c hc hceq
    exact h (hceq ▸ hc)
  simp only [splitParams]
  by_cases hs : '/' ∈ cs
  · rw [if_pos hs, if_neg]
    intro hmem
    have h1 : ';' ∈ cs.reverse.takeWhile (fun c => c ≠ '/') := by
      simpa using hmem
    have h2 : ';' ∈ cs.reverse := mem_of_mem_takeWhile h1
    exact h (List.mem_reverse.mp h2)
  · rw [if_neg hs, takeWhile_eq_self_of_all _ _ hall]

theorem pathOfRest_id (cs : List Char)
    (h1 : cs.all (fun c => c ≠ '#') = true)
    (h2 : cs.all (fun c => c ≠ '?') = true)
    (h3 : ';' ∉ cs) :
    pathOfRest cs = cs := by
  unfold pathOfRest
  rw [takeWhile_eq_self_of_all _ _ h1, takeWhile_eq_self_of_all _ _ h2]
  exact splitParams_id cs h3

theorem pyJoin_all (sep : Char) (p : Char → Bool) (hsep : p sep = true) :
    ∀ (parts : List (List Char)), (∀ part ∈ parts, part.all p = true) →
      (pyJoin sep parts).all p = true := by
  intro parts
  induction parts with
  | nil => intro h; rfl
  | cons x xs ih =>
    intro h
    cases xs with
    | nil => exact h x (List.mem_singleton.mpr rfl)
    | cons y ys =>
      show ((x ++ sep :: pyJoin sep (y :: ys)).all p) = true
      simp only [List.all_append, List.all_cons, Bool.and_eq_true]
      exact ⟨h x (List.mem_cons_self x _), hsep,
        ih (fun part hp => h part (List.mem_cons_of_mem x hp))⟩

theorem pySplit_no_sep (sep : Char) (xs : List Char)
    (h : xs.all (fun c => c ≠ sep) = true) : pySplit sep xs = [xs] := by
  induction xs with
  | nil => rfl
  | cons c cs ih =>
    simp only [List.all_cons, Bool.and_eq_true] at h
    have hc : ¬(c = sep) := by simpa using h.1
    simp only [pySplit]
    rw [if_neg hc, ih h.2]

theorem pySplit_append_sep (sep : Char) (rest : List Char) :
    ∀ x : List Char, x.all (fun c => c ≠ sep) = true →
      pySplit sep (x ++ sep :: rest) = x :: pySplit sep rest := by
  intro x
  induction x with
  | nil =>
    intro hx
    show pySplit sep (sep :: rest) = [] :: pySplit sep rest
    simp [pySplit]
  | cons c cs ih =>
    intro hx
    simp only [List.all_cons, Bool.and_eq_true] at hx
    have hc : ¬(c = sep) := by simpa using hx.1
    simp only [List.cons_append, pySplit, List.append_eq]
    rw [if_neg hc, ih hx.2]

theorem pySplit_pyJoin (sep : Char) :
    ∀ (parts : List (List Char)), parts ≠ [] →
      (∀ part ∈ parts, part.all (fun c => c ≠ sep) = true) →
      pySplit sep (pyJoin sep parts) = parts := by
  intro parts
  induction parts with
  | nil => intro h _; exact absurd rfl h
  | cons x xs ih =>
    intro _ h
    cases xs with
    | nil =>
      show pySplit sep (pyJoin sep [x]) = [x]
      exact pySplit_no_sep sep x (h x (List.mem_singleton.mpr rfl))
    | cons y ys =>
      show pySplit sep (x ++ sep :: pyJoin sep (y :: ys)) = x :: y :: ys
      rw [pySplit_append_sep sep _ x (h x (List.mem_cons_self x _))]
      rw [ih (by simp) (fun part hp => h part (List.mem_cons_of_mem x hp))]

/-! ### Claims C2 and C6 -/

set_option maxHeartbeats 1600000 in
/-- C2: a `github.com` URL whose path segments are
`/user/project/mode/branch/...path` resolves to
`https://raw.githubusercontent.com/user/project/branch/...path` — the
mode segment is dropped and the host replaced by the raw-content
host. -/
theorem C2_github_rewrite (user project mode branch : String)
    (rest : List String)
    (hu : cleanSeg user = true) (hp : cleanSeg project = true)
    (hm : cleanSeg mode = true) (hb : cleanSeg branch = true)
    (hr : ∀ r ∈ rest, cleanSeg r = true) :
    _process_url ("https://github.com/" ++
        joinSlash ([user, project, mode, branch] ++ rest)) =
      .ok ("https://raw.githubusercontent.com/" ++ user ++ "/" ++ project ++
        "/" ++ branch ++ "/" ++ joinSlash rest) := by
  have hseg : ∀ s ∈ ([user, project, mode, branch] ++ rest), cleanSeg s = true := by
    intro s hs
    rcases List.mem_append.mp hs with hs | hs
    · simp only [List.mem_cons, List.mem_singleton] at hs
      rcases hs with rfl | rfl | rfl | rfl | hs
      · exact hu
      · exact hp
      · exact hm
      · exact hb
      · cases hs
    · exact hr s hs
  have hparts : ∀ part ∈ ([user, project, mode, branch] ++ rest).map String.data,
      part.all (fun c => ¬(c = '/' ∨ c = '?' ∨ c = '#' ∨ c = ';')) = true := by
    intro part hp2
    rcases List.mem_map.mp hp2 with ⟨s, hs, rfl⟩
    exact hseg s hs
  have hslash : ∀ part ∈ ([user, project, mode, branch] ++ rest).map String.data,
      part.all (fun c => c ≠ '/') = true := by
    intro part hp2
    refine all_weaken _ (hparts part hp2) ?_
    intro c hc
    simp only [decide_eq_true_eq] at hc ⊢
    tauto
  have hJhash : (pyJoin '/' (([user, project, mode, branch] ++ rest).map String.data)).all
      (fun c => c ≠ '#') = true := by
    refine pyJoin_all '/' _ (by decide) _ ?_
    intro part hp2
    refine all_weaken _ (hparts part hp2) ?_
    intro c hc
    simp only [decide_eq_true_eq] at hc ⊢
    tauto
  have hJq : (pyJoin '/' (([user, project, mode, branch] ++ rest).map String.data)).all
      (fun c => c ≠ '?') = true := by
    refine pyJoin_all '/' _ (by decide) _ ?_
    intro part hp2
    refine all_weaken _ (hparts part hp2) ?_
    intro c hc
    simp only [decide_eq_true_eq] at hc ⊢
    tauto
  have hJsemi : (pyJoin '/' (([user, project, mode, branch] ++ rest).map String.data)).all
      (fun c => c ≠ ';') = true := by
    refine pyJoin_all '/' _ (by decide) _ ?_
    intro part hp2
    refine all_weaken _ (hparts part hp2) ?_
    intro c hc
    simp only [decide_eq_true_eq] at hc ⊢
    tauto
  have hJnosemi : ';' ∉ ('/' ::
      pyJoin '/' (([user, project, mode, branch] ++ rest).map String.data)) := by
    intro hmem
    rcases List.mem_cons.mp hmem with h | h
    · exact absurd h (by decide)
    · have := List.all_eq_true.mp hJsemi ';' h
      simp at this
  have hsplitN : splitNetloc (dropScheme ("https://github.com/" ++
      joinSlash ([user, project, mode, branch] ++ rest)).data) =
      ("github.com".data,
        '/' :: pyJoin '/' (([user, project, mode, branch] ++ rest).map String.data)) := by
    have hurl : ("https://github.com/" ++
        joinSlash ([user, project, mode, branch] ++ rest)).data =
        "https:".data ++ ('/' :: '/' :: ("github.com".data ++
          ('/' :: pyJoin '/' (([user, project, mode, branch] ++ rest).map String.data)))) := rfl
    rw [hurl, dropScheme_https]
    exact splitNetloc_host _ _ (by decide) (Or.inl rfl)
  have hhost : urlHost ("https://github.com/" ++
      joinSlash ([user, project, mode, branch] ++ rest)) = "github.com".data := by
    unfold urlHost urlNetloc
    rw [hsplitN]
    rfl
  have hpath : urlPath ("https://github.com/" ++
      joinSlash ([user, project, mode, branch] ++ rest)) =
      '/' :: pyJoin '/' (([user, project, mode, branch] ++ rest).map String.data) := by
    unfold urlPath
    rw [hsplitN]
    show pathOfRest ('/' ::
      pyJoin '/' (([user, project, mode, branch] ++ rest).map String.data)) = _
    refine pathOfRest_id _ ?_ ?_ hJnosemi
    · simp only [List.all_cons, Bool.and_eq_true]
      exact ⟨by decide, hJhash⟩
    · simp only [List.all_cons, Bool.and_eq_true]
      exact ⟨by decide, hJq⟩
  have hsplit5 : pySplit '/'
      ('/' :: pyJoin '/' (([user, project, mode, branch] ++ rest).map String.data)) =
      [] :: user.data :: project.data :: mode.data :: branch.data ::
        rest.map String.data := by
    have h0 : pySplit '/'
        ('/' :: pyJoin '/' (([user, project, mode, branch] ++ rest).map String.data)) =
        [] :: pySplit '/'
          (pyJoin '/' (([user, project, mode, branch] ++ rest).map String.data)) := by
      simp [pySplit]
    rw [h0, pySplit_pyJoin '/' _ (by simp) hslash]
    rfl
  simp only [_process_url, _process_url_github]
  rw [hhost, hpath, if_pos rfl, hsplit5]
  refine congrArg Except.ok ?_
  refine strExt _ _ ?_
  have hs : "/".data = ['/'] := rfl
  simp [strData_append, joinSlash, hs, List.append_assoc]

/-- Witness for C2 at the spec's own example URL. -/
theorem C2_github_rewrite_witness :
    _process_url ("https://github.com/" ++
        joinSlash (["u", "p", "blob", "b"] ++ ["f.py"])) =
      .ok ("https://raw.githubusercontent.com/" ++ "u" ++ "/" ++ "p" ++
        "/" ++ "b" ++ "/" ++ joinSlash ["f.py"]) := by
  refine C2_github_rewrite "u" "p" "blob" "b" ["f.py"]
    (by decide) (by decide) (by decide) (by decide) ?_
  intro r hr
  rcases List.mem_singleton.mp hr with rfl
  decide

/-- C6 counterexample: an already-raw URL carrying a query string is not
returned unchanged — resolution drops the query, so "the rest of the
input URL" is not preserved. -/
theorem C6_counterexample :
    _process_url "https://raw.githubusercontent.com/a/b?x=1" =
        .ok "https://raw.githubusercontent.com/a/b" ∧
    _process_url "https://raw.githubusercontent.com/a/b?x=1" ≠
        .ok "https://raw.githubusercontent.com/a/b?x=1" := by
  decide

/-- C6 (amended): for an already-raw `https` URL without `www` whose
path part carries no query, fragment or params, resolution returns the
input unchanged (path passed through under the same raw-content host);
a query or fragment, however, is dropped rather than preserved. -/
theorem C6_raw_identity (p : String)
    (hq : p.data.all (fun c => c ≠ '?') = true)
    (hh : p.data.all (fun c => c ≠ '#') = true)
    (hsemi : ';' ∉ p.data)
    (hhead : p.data.head? = some '/' ∨ p.data = []) :
    _process_url ("https://raw.githubusercontent.com" ++ p) =
      .ok ("https://raw.githubusercontent.com" ++ p) := by
  have hurl : ("https://raw.githubusercontent.com" ++ p).data =
      "https:".data ++ ('/' :: '/' :: ("raw.githubusercontent.com".data ++ p.data)) := rfl
  have hsplitN : splitNetloc (dropScheme
      ("https://raw.githubusercontent.com" ++ p).data) =
      ("raw.githubusercontent.com".data, p.data) := by
    rw [hurl, dropScheme_https]
    exact splitNetloc_host _ _ (by decide) hhead
  have hhost : urlHost ("https://raw.githubusercontent.com" ++ p) =
      "raw.githubusercontent.com".data := by
    unfold urlHost urlNetloc
    rw [hsplitN]
    rfl
  have hpath : urlPath ("https://raw.githubusercontent.com" ++ p) = p.data := by
    unfold urlPath
    rw [hsplitN]
    show pathOfRest p.data = p.data
    exact pathOfRest_id _ hh hq hsemi
  simp only [_process_url, _process_url_github]
  rw [hhost, hpath, if_neg (by decide), if_pos rfl]
  rfl

/-- Witness for C6's amended statement at a concrete raw URL. -/
theorem C6_raw_identity_witness :
    _process_url ("https://raw.githubusercontent.com" ++ "/a/b.py") =
      .ok ("https://raw.githubusercontent.com" ++ "/a/b.py") :=
  C6_raw_identity "/a/b.py" (by decide) (by decide) (by decide)
    (Or.inl (by decide))

end Belay
